import Mathlib

/-!
Shallow embedding of `screen-toggle` (src/src/main.rs): a utility that
watches for the Ctrl-Alt-D chord and toggles a desired display-power state,
which a dedicated enforcement thread keeps re-asserting via `xset`.

The embedding follows the source:
* `KeyState`, `Key` — the rdev key model used by the program.
* `KeyTable` with `get_state` / `set_state` — `KeyStates`, a HashMap behind a
  mutex; `get_state` uses `entry(key).or_insert(Released)` (a read inserts a
  default entry), `set_state` uses `*entry(*key).or_insert(state) = state`
  (net effect: overwrite).
* `ScreenState` — an `AtomicBool` initialized to `true`; modelled as `Bool`.
* The enforcer thread body (`ScreenStateEnforcer::new`) — a small-step
  machine `enfStep` over phases of the loop body, emitting command/sleep
  actions; `sysStep` interleaves it with `toggle` writes from the main
  thread.
* The main loop chord detection with debounce — `mainStep`.
-/

namespace ScreenToggle

/-- `enum KeyState { Pressed, Released }`. -/
inductive KeyState
  | Pressed
  | Released
deriving DecidableEq, Repr

/-- The rdev keys imported by the program, plus a catch-all for the rest of
the rdev `Key` enum. -/
inductive Key
  | Alt
  | AltGr
  | ControlLeft
  | ControlRight
  | Insert
  | KeyD
  | KeyE
  | KeyS
  | ShiftLeft
  | Other (code : Nat)
deriving DecidableEq, Repr

/-- The `HashMap<Key, KeyState>` inside `KeyStates`, as a partial map. -/
def KeyTable := Key → Option KeyState

/-- `HashMap::new()`. -/
def KeyTable.empty : KeyTable := fun _ => none

/-- Map update: what `entry` + assignment does to the map. -/
def KeyTable.insert (t : KeyTable) (k : Key) (s : KeyState) : KeyTable :=
  fun k2 => if k2 = k then some s else t k2

/-- The stored state of `k`, defaulting to `Released` when absent: the
value-level view of the table. -/
def KeyTable.getD (t : KeyTable) (k : Key) : KeyState :=
  (t k).getD KeyState.Released

/-- `KeyStates::get_state`: `*self.0.lock().unwrap().entry(key).or_insert(KeyState::Released)`.
Returns the stored state, inserting (and returning) `Released` when the key
has no entry; the second component is the table after the call. -/
def get_state (t : KeyTable) (k : Key) : KeyState × KeyTable :=
  match t k with
  | some s => (s, t)
  | none => (KeyState.Released, t.insert k KeyState.Released)

/-- `KeyStates::set_state`: `*self.0.lock().unwrap().entry(*key).or_insert(state) = state`.
Whether the entry existed or was just inserted, it ends up holding `state`. -/
def set_state (t : KeyTable) (k : Key) (s : KeyState) : KeyTable :=
  t.insert k s

/-- `ScreenState::new`: `AtomicBool::new(true)`. -/
def ScreenState.new : Bool := true

/-- `ScreenState::is_off`: `!self.0.load(..)`. -/
def ScreenState.is_off (b : Bool) : Bool := !b

/-- `ScreenState::is_on`: `self.0.load(..)`. -/
def ScreenState.is_on (b : Bool) : Bool := b

/-- `ScreenState::toggle`: store the negation of the loaded value. -/
def ScreenState.toggle (b : Bool) : Bool := !b

/-- `ScreenState::set_from`: store the other value. -/
def ScreenState.set_from (_self other : Bool) : Bool := other

/-- `PartialEq for ScreenState`: compares the two loaded booleans. -/
def ScreenState.beq (a b : Bool) : Bool := b == a

/-- The two `xset dpms force ...` argument sets. -/
inductive Cmd
  | off
  | on
deriving DecidableEq, Repr

/-- Observable actions of the enforcement thread: an external command
invocation, or a `thread::sleep(Duration::from_millis(ms))`. -/
inductive EAction
  | cmd (c : Cmd)
  | sleepMs (ms : Nat)
deriving DecidableEq, Repr

/-- Program points of the enforcement thread's loop body.

* `whileCheck` — about to evaluate `state_ptr.is_off()` (top of the inner
  `while`);
* `burstCheck` — about to evaluate `state_ptr != old_state_ptr`;
* `burst n` — inside `for _ in 0..100`, with `n` iterations left to run;
  `burst 0` is about to execute `old_state_ptr.set_from(&state_ptr)`;
* `endSleep` — about to execute the final `thread::sleep(50)` of the body. -/
inductive EPhase
  | whileCheck
  | burstCheck
  | burst (remaining : Nat)
  | endSleep
deriving DecidableEq, Repr

/-- Thread-local state of the enforcement thread: its program point and
`old_state` (the spec's AppliedState). -/
structure EnfState where
  pc : EPhase
  applied : Bool
deriving DecidableEq, Repr

/-- The enforcement thread at startup: at the top of its loop, with
`old_state = ScreenState::new()`. -/
def enfInit : EnfState := { pc := EPhase.whileCheck, applied := ScreenState.new }

/-- One atomic step of the enforcement thread, reading the shared `state`
(`desired`) at its current program point.  Follows the loop body of
`ScreenStateEnforcer::new` line by line. -/
def enfStep (desired : Bool) (s : EnfState) : EnfState × List EAction :=
  match s.pc with
  | EPhase.whileCheck =>
      if ScreenState.is_off desired then
        ({ s with pc := EPhase.whileCheck }, [EAction.cmd Cmd.off, EAction.sleepMs 50])
      else
        ({ s with pc := EPhase.burstCheck }, [])
  | EPhase.burstCheck =>
      if ScreenState.beq desired s.applied then
        ({ s with pc := EPhase.endSleep }, [])
      else
        ({ s with pc := EPhase.burst 100 }, [])
  | EPhase.burst (n + 1) =>
      ({ s with pc := EPhase.burst n }, [EAction.cmd Cmd.on, EAction.sleepMs 100])
  | EPhase.burst 0 =>
      ({ pc := EPhase.endSleep, applied := ScreenState.set_from s.applied desired }, [])
  | EPhase.endSleep =>
      ({ s with pc := EPhase.whileCheck }, [EAction.sleepMs 50])

/-- Shared state of the process: the `ScreenState` atomic (`desired`) and the
enforcement thread's local state. -/
structure Sys where
  desired : Bool
  enf : EnfState
deriving DecidableEq, Repr

/-- Process state right after `ScreenStateEnforcer::new()`: both atomics hold
`true` and the thread is at the top of its loop. -/
def sysInit : Sys := { desired := ScreenState.new, enf := enfInit }

/-- Interleaving events: a step of the enforcement thread, or the main
thread's `ssenforcer.state.toggle()`. -/
inductive SysEv
  | enf
  | toggle
deriving DecidableEq, Repr

/-- One interleaved step of the system. -/
def sysStep : SysEv → Sys → Sys × List EAction
  | SysEv.enf, s =>
      let r := enfStep s.desired s.enf
      ({ s with enf := r.1 }, r.2)
  | SysEv.toggle, s =>
      ({ s with desired := ScreenState.toggle s.desired }, [])

/-- Run a schedule of interleaved steps, collecting the emitted actions. -/
def sysRun : List SysEv → Sys → Sys × List EAction
  | [], s => (s, [])
  | e :: es, s =>
      let r1 := sysStep e s
      let r2 := sysRun es r1.1
      (r2.1, r1.2 ++ r2.2)

/-- Number of Off→On transitions of `desired` along a schedule. -/
def offOnToggles : List SysEv → Sys → Nat
  | [], _ => 0
  | e :: es, s =>
      (match e with
       | SysEv.toggle => if s.desired then 0 else 1
       | SysEv.enf => 0) + offOnToggles es (sysStep e s).1

/-- Is this action an external command invocation? -/
def isCmd : EAction → Bool
  | EAction.cmd _ => true
  | EAction.sleepMs _ => false

/-- The action trace of `n` iterations of the off-spam `while` body:
`send_off_cmd(); sleep(50)` repeated. -/
def offSpam : Nat → List EAction
  | 0 => []
  | n + 1 => EAction.cmd Cmd.off :: EAction.sleepMs 50 :: offSpam n

/-- `static DEBOUNCE_MS: u128 = 500`. -/
def DEBOUNCE_MS : Nat := 500

/-- State carried across iterations of `main`'s loop: the shared `desired`
flag, the instant of the last accepted toggle (ms), and the key table. -/
structure MainState where
  desired : Bool
  lastToggle : Nat
  table : KeyTable

/-- One iteration of `main`'s chord-sampling loop at time `now` (ms):
read the three chord keys via `get_state`, and on `(Pressed, Pressed,
Pressed)` with more than `DEBOUNCE_MS` elapsed, toggle and reset the timer. -/
def mainStep (now : Nat) (s : MainState) : MainState :=
  let r1 := get_state s.table Key.ControlLeft
  let r2 := get_state r1.2 Key.Alt
  let r3 := get_state r2.2 Key.KeyD
  match r1.1, r2.1, r3.1 with
  | KeyState.Pressed, KeyState.Pressed, KeyState.Pressed =>
      if now - s.lastToggle > DEBOUNCE_MS then
        { desired := ScreenState.toggle s.desired, lastToggle := now, table := r3.2 }
      else
        { s with table := r3.2 }
  | _, _, _ => { s with table := r3.2 }

/-- The rdev event types the callback distinguishes. -/
inductive EventType
  | KeyPress (k : Key)
  | KeyRelease (k : Key)
  | Other
deriving DecidableEq, Repr

/-- The `KeyboardState::new` callback's effect on the table: presses and
releases are recorded via `set_state`; other events are ignored. -/
def callback (t : KeyTable) : EventType → KeyTable
  | EventType.KeyPress k => set_state t k KeyState.Pressed
  | EventType.KeyRelease k => set_state t k KeyState.Released
  | EventType.Other => t

/-- Interleaved events seen by the chord-detection state: an input event
handled by the callback, or a sampling iteration of `main`'s loop at a given
time. -/
inductive MainEv
  | ev (e : EventType)
  | sample (now : Nat)

/-- Run a sequence of input events and sampling cycles. -/
def mainRun : List MainEv → MainState → MainState
  | [], s => s
  | MainEv.ev e :: es, s => mainRun es { s with table := callback s.table e }
  | MainEv.sample now :: es, s => mainRun es (mainStep now s)

/-- All three chord keys read as `Pressed` from the table. -/
def allPressed (t : KeyTable) : Bool :=
  decide (t.getD Key.ControlLeft = KeyState.Pressed)
    && decide (t.getD Key.Alt = KeyState.Pressed)
    && decide (t.getD Key.KeyD = KeyState.Pressed)

/-- The chord is never fully pressed at any point of the run (in particular
at every sampling cycle). -/
def chordFree : List MainEv → MainState → Bool
  | [], s => !(allPressed s.table)
  | MainEv.ev e :: es, s =>
      !(allPressed s.table) && chordFree es { s with table := callback s.table e }
  | MainEv.sample now :: es, s =>
      !(allPressed s.table) && chordFree es (mainStep now s)

/-- `std::process::Output` (status plus captured streams). -/
structure Output where
  status : Int
  stdout : List Nat
  stderr : List Nat
deriving DecidableEq, Repr

/-- Outcome of `Command::new("xset")...spawn()?.wait_with_output()?`: the
spawn can fail, the wait can fail, or the child runs to completion with some
`Output` (whatever its exit status). -/
inductive SpawnOutcome
  | spawnErr
  | waitErr
  | completed (o : Output)
deriving DecidableEq, Repr

/-- `ScreenStateEnforcer::send_off_cmd`: `?` propagates spawn and wait
errors; a completed child is returned as `Ok` regardless of exit status. -/
def send_off_cmd : SpawnOutcome → Except String Output
  | SpawnOutcome.spawnErr => Except.error "spawn failed"
  | SpawnOutcome.waitErr => Except.error "wait failed"
  | SpawnOutcome.completed o => Except.ok o

/-- `ScreenStateEnforcer::send_on_cmd`: same structure as `send_off_cmd`. -/
def send_on_cmd : SpawnOutcome → Except String Output
  | SpawnOutcome.spawnErr => Except.error "spawn failed"
  | SpawnOutcome.waitErr => Except.error "wait failed"
  | SpawnOutcome.completed o => Except.ok o

/-- Did the call return `Err`? -/
def isErr : Except String Output → Bool
  | Except.error _ => true
  | Except.ok _ => false

/-- `.expect("Could not send.")` in the enforcement thread: `none` models the
panic that aborts the thread. -/
def expectSend : Except String Output → Option Output
  | Except.ok o => some o
  | Except.error _ => none

/-- An abstract history of table operations, for stating the `KeyStates`
contract over whole call sequences. -/
inductive TableOp
  | set (k : Key) (s : KeyState)
  | get (k : Key)

/-- Apply a sequence of `set_state` / `get_state` calls to a table
(`get_state` is applied for its side effect on the table). -/
def runOps : List TableOp → KeyTable → KeyTable
  | [], t => t
  | TableOp.set k s :: ops, t => runOps ops (set_state t k s)
  | TableOp.get k :: ops, t => runOps ops (get_state t k).2

/-- The last value passed to `set_state` for `k` in the sequence, if any. -/
def lastSet : List TableOp → Key → Option KeyState
  | [], _ => none
  | TableOp.set k2 s :: ops, k =>
      match lastSet ops k with
      | some v => some v
      | none => if k2 = k then some s else none
  | TableOp.get _ :: ops, k => lastSet ops k

/-! ### Lemmas about the key table -/

theorem get_state_fst (t : KeyTable) (k : Key) : (get_state t k).1 = t.getD k := by
  unfold get_state KeyTable.getD
  cases t k <;> simp

theorem getD_insert (t : KeyTable) (k k2 : Key) (s : KeyState) :
    (t.insert k s).getD k2 = if k2 = k then s else t.getD k2 := by
  unfold KeyTable.insert KeyTable.getD
  by_cases h : k2 = k <;> simp [h]

theorem get_state_snd_getD (t : KeyTable) (k k2 : Key) :
    ((get_state t k).2).getD k2 = t.getD k2 := by
  unfold get_state
  cases h : t k with
  | some s => simp
  | none =>
      simp only
      rw [getD_insert]
      by_cases h2 : k2 = k
      · subst h2
        unfold KeyTable.getD
        rw [h]
        simp
      · simp [h2]

theorem getD_set_state (t : KeyTable) (k k2 : Key) (s : KeyState) :
    (set_state t k s).getD k2 = if k2 = k then s else t.getD k2 := by
  unfold set_state
  exact getD_insert t k k2 s

theorem runOps_getD (ops : List TableOp) (t : KeyTable) (k : Key) :
    (runOps ops t).getD k = (lastSet ops k).getD (t.getD k) := by
  induction ops generalizing t with
  | nil => rfl
  | cons op ops ih =>
      cases op with
      | set k2 s =>
          rw [runOps, lastSet, ih]
          cases h : lastSet ops k with
          | some v => simp
          | none =>
              simp only [Option.getD_none]
              rw [getD_set_state]
              by_cases h2 : k2 = k
              · subst h2
                simp
              · have h3 : ¬ k = k2 := fun hc => h2 hc.symm
                simp [h2, h3]
      | get k2 =>
          rw [runOps, lastSet, ih, get_state_snd_getD]

/-- C8: over any sequence of `set_state`/`get_state` calls starting from the
empty table, `get_state k` returns the value most recently passed to
`set_state k`, or `Released` if `k` was never set; `set_state` overwrites any
prior value; and every lookup returns the defined stored-or-`Released`
value, never an error. -/
theorem c8_key_table_contract :
    (∀ (ops : List TableOp) (k : Key),
        (get_state (runOps ops KeyTable.empty) k).1
          = (lastSet ops k).getD KeyState.Released)
    ∧ (∀ (t : KeyTable) (k : Key) (s : KeyState), (get_state (set_state t k s) k).1 = s)
    ∧ (∀ (t : KeyTable) (k : Key), (get_state t k).1 = t.getD k) := by
  refine ⟨fun ops k => ?_, fun t k s => ?_, fun t k => get_state_fst t k⟩
  · rw [get_state_fst, runOps_getD]
    rfl
  · rw [get_state_fst, getD_set_state]
    simp

/-- C10: `get_state` on a key is a mutating read: afterwards the table always
holds an entry for the key (the returned value), and when the key was absent
the call inserts `Released`, changing the table at that key. -/
theorem c10_get_state_inserts_released (t : KeyTable) (k : Key) :
    ((get_state t k).2) k = some ((get_state t k).1)
    ∧ (t k = none →
         ((get_state t k).2) k = some KeyState.Released
         ∧ t k ≠ ((get_state t k).2) k) := by
  cases h : t k with
  | some s =>
      constructor
      · simp [get_state, h]
      · intro hc
        exact absurd hc (by simp)
  | none =>
      constructor
      · simp [get_state, h, KeyTable.insert]
      · intro _
        refine ⟨by simp [get_state, h, KeyTable.insert], ?_⟩
        simp [get_state, h, KeyTable.insert]

/-- Witness for C10 at a concrete absent key: reading `ControlLeft` from the
empty table inserts (and returns) `Released`. -/
theorem c10_get_state_inserts_released_witness :
    ((get_state KeyTable.empty Key.ControlLeft).2) Key.ControlLeft
        = some KeyState.Released
    ∧ KeyTable.empty Key.ControlLeft
        ≠ ((get_state KeyTable.empty Key.ControlLeft).2) Key.ControlLeft :=
  (c10_get_state_inserts_released KeyTable.empty Key.ControlLeft).2 rfl

/-! ### Lemmas about the chord-sampling loop -/

theorem mainStep_spec (now : Nat) (s : MainState) :
    ((mainStep now s).desired =
        if allPressed s.table = true ∧ now - s.lastToggle > DEBOUNCE_MS then
          !s.desired
        else s.desired)
    ∧ ((mainStep now s).lastToggle =
        if allPressed s.table = true ∧ now - s.lastToggle > DEBOUNCE_MS then
          now
        else s.lastToggle)
    ∧ (∀ k : Key, ((mainStep now s).table).getD k = s.table.getD k) := by
  have hc : (get_state s.table Key.ControlLeft).1 = s.table.getD Key.ControlLeft :=
    get_state_fst _ _
  have ha : (get_state (get_state s.table Key.ControlLeft).2 Key.Alt).1
      = s.table.getD Key.Alt := by
    rw [get_state_fst, get_state_snd_getD]
  have hd :
      (get_state (get_state (get_state s.table Key.ControlLeft).2 Key.Alt).2 Key.KeyD).1
        = s.table.getD Key.KeyD := by
    rw [get_state_fst, get_state_snd_getD, get_state_snd_getD]
  have htab : ∀ k : Key,
      ((get_state (get_state (get_state s.table Key.ControlLeft).2 Key.Alt).2
          Key.KeyD).2).getD k = s.table.getD k := by
    intro k
    rw [get_state_snd_getD, get_state_snd_getD, get_state_snd_getD]
  simp only [mainStep, hc, ha, hd]
  cases hC : s.table.getD Key.ControlLeft
    <;> cases hA : s.table.getD Key.Alt
    <;> cases hD : s.table.getD Key.KeyD
    <;> simp only [allPressed, hC, hA, hD, ScreenState.toggle]
    <;> simp
    <;> try exact htab
  constructor
  · split <;> simp
  constructor
  · split <;> simp
  · split <;> exact htab

theorem allPressed_of_getD_eq (t1 t2 : KeyTable)
    (h : ∀ k : Key, t1.getD k = t2.getD k) : allPressed t1 = allPressed t2 := by
  unfold allPressed
  rw [h, h, h]

/-- C1: a sampling cycle at time `now` toggles `DesiredState` (and resets the
debounce timer to `now`) if and only if the three chord keys all read
`Pressed` and strictly more than `DEBOUNCE_MS` (500) ms elapsed since the
last accepted toggle; a second activation within the debounce interval
leaves the flag unchanged, while one strictly past it toggles again (so two
spaced activations each toggle exactly once). -/
theorem c1_chord_debounce (s : MainState) (now now2 : Nat) (h : s.lastToggle ≤ now) :
    ((mainStep now s).desired ≠ s.desired
        ↔ allPressed s.table = true ∧ now - s.lastToggle > DEBOUNCE_MS)
    ∧ (allPressed s.table = true → now - s.lastToggle > DEBOUNCE_MS →
        (mainStep now s).desired = !s.desired ∧ (mainStep now s).lastToggle = now)
    ∧ (¬(allPressed s.table = true ∧ now - s.lastToggle > DEBOUNCE_MS) →
        (mainStep now s).desired = s.desired
        ∧ (mainStep now s).lastToggle = s.lastToggle)
    ∧ (allPressed s.table = true → now - s.lastToggle > DEBOUNCE_MS →
        now2 - now ≤ DEBOUNCE_MS →
        (mainStep now2 (mainStep now s)).desired = (mainStep now s).desired)
    ∧ (allPressed s.table = true → now - s.lastToggle > DEBOUNCE_MS →
        now2 - now > DEBOUNCE_MS →
        (mainStep now2 (mainStep now s)).desired = s.desired) := by
  obtain ⟨hdes, hlt, htab⟩ := mainStep_spec now s
  have hall : allPressed ((mainStep now s).table) = allPressed s.table :=
    allPressed_of_getD_eq _ _ htab
  obtain ⟨hdes2, -, -⟩ := mainStep_spec now2 (mainStep now s)
  refine ⟨?_, ?_, ?_, ?_, ?_⟩
  · rw [hdes]
    split
    · simp_all
    · simp_all
  · intro h1 h2
    rw [hdes, hlt]
    rw [if_pos ⟨h1, h2⟩, if_pos ⟨h1, h2⟩]
    exact ⟨rfl, rfl⟩
  · intro hn
    rw [hdes, hlt, if_neg hn, if_neg hn]
    exact ⟨rfl, rfl⟩
  · intro h1 h2 h3
    rw [hdes2]
    have hlt2 : (mainStep now s).lastToggle = now := by
      rw [hlt, if_pos ⟨h1, h2⟩]
    rw [hlt2]
    have : ¬(allPressed ((mainStep now s).table) = true
        ∧ now2 - now > DEBOUNCE_MS) := by
      rintro ⟨-, hgt⟩
      exact absurd h3 (not_le.mpr hgt)
    rw [if_neg this]
  · intro h1 h2 h3
    rw [hdes2]
    have hlt2 : (mainStep now s).lastToggle = now := by
      rw [hlt, if_pos ⟨h1, h2⟩]
    rw [hlt2, hall, if_pos ⟨h1, h3⟩, hdes, if_pos ⟨h1, h2⟩]
    simp

/-- A concrete table with exactly the three chord keys pressed. -/
def chordTable : KeyTable := fun k =>
  match k with
  | Key.ControlLeft => some KeyState.Pressed
  | Key.Alt => some KeyState.Pressed
  | Key.KeyD => some KeyState.Pressed
  | _ => none

/-- Detector state with the chord held and the last toggle at t = 0 ms. -/
def s0 : MainState := { desired := true, lastToggle := 0, table := chordTable }

/-- Witness for C1: with the chord held since t = 0, sampling at 600 ms
toggles and resets the timer, re-sampling at 1000 ms (400 ms later, inside
the debounce window) changes nothing, and re-sampling at 1200 ms (600 ms
later) toggles back. -/
theorem c1_chord_debounce_witness :
    (mainStep 600 s0).desired = !s0.desired
    ∧ (mainStep 600 s0).lastToggle = 600
    ∧ (mainStep 1000 (mainStep 600 s0)).desired = (mainStep 600 s0).desired
    ∧ (mainStep 1200 (mainStep 600 s0)).desired = s0.desired := by
  refine ⟨?_, ?_, ?_, ?_⟩
  · exact ((c1_chord_debounce s0 600 1000 (by decide)).2.1 (by decide) (by decide)).1
  · exact ((c1_chord_debounce s0 600 1000 (by decide)).2.1 (by decide) (by decide)).2
  · exact (c1_chord_debounce s0 600 1000 (by decide)).2.2.2.1 (by decide) (by decide)
      (by decide)
  · exact (c1_chord_debounce s0 600 1200 (by decide)).2.2.2.2 (by decide) (by decide)
      (by decide)

/-- C5: over any interleaving of input events and sampling cycles in which
the three chord keys are never all simultaneously pressed, the desired-state
flag never changes. -/
theorem c5_no_chord_no_change (es : List MainEv) (s : MainState)
    (h : chordFree es s = true) : (mainRun es s).desired = s.desired := by
  induction es generalizing s with
  | nil => rfl
  | cons e es ih =>
      cases e with
      | ev e0 =>
          rw [chordFree, Bool.and_eq_true] at h
          exact ih { s with table := callback s.table e0 } h.2
      | sample now =>
          rw [chordFree, Bool.and_eq_true, Bool.not_eq_true'] at h
          rw [mainRun, ih (mainStep now s) h.2, (mainStep_spec now s).1]
          rw [if_neg]
          rintro ⟨hp, -⟩
          rw [h.1] at hp
          exact Bool.false_ne_true hp

/-- A concrete chord-free trace: two chord keys pressed, a sample, an
unrelated key pressed, another sample. -/
def c5evs : List MainEv :=
  [MainEv.ev (EventType.KeyPress Key.ControlLeft),
   MainEv.ev (EventType.KeyPress Key.Alt),
   MainEv.sample 1000,
   MainEv.ev (EventType.KeyPress Key.KeyS),
   MainEv.sample 2000]

/-- Detector state at startup: empty table, desired on, timer at 0. -/
def mInit : MainState := { desired := true, lastToggle := 0, table := KeyTable.empty }

/-- Witness for C5 on the concrete chord-free trace. -/
theorem c5_no_chord_no_change_witness : (mainRun c5evs mInit).desired = true :=
  c5_no_chord_no_change c5evs mInit (by decide)

/-! ### Lemmas about the enforcement thread -/

theorem sysStep_enf_off (s : Sys) (hd : s.desired = false)
    (hpc : s.enf.pc = EPhase.whileCheck) :
    sysStep SysEv.enf s = (s, [EAction.cmd Cmd.off, EAction.sleepMs 50]) := by
  obtain ⟨d, pc, ap⟩ := s
  simp only at hd hpc
  subst hd
  subst hpc
  rfl

theorem sysStep_enf_leave_off (s : Sys) (hd : s.desired = true)
    (hpc : s.enf.pc = EPhase.whileCheck) :
    sysStep SysEv.enf s = ({ s with enf := { s.enf with pc := EPhase.burstCheck } }, []) := by
  obtain ⟨d, pc, ap⟩ := s
  simp only at hd hpc
  subst hd
  subst hpc
  rfl

/-- Stable configuration: desired and applied both on, enforcement thread
outside the burst. -/
def stable (s : Sys) : Prop :=
  s.desired = true ∧ s.enf.applied = true
    ∧ (s.enf.pc = EPhase.whileCheck ∨ s.enf.pc = EPhase.burstCheck
        ∨ s.enf.pc = EPhase.endSleep)

theorem stable_step (s : Sys) (h : stable s) :
    stable (sysStep SysEv.enf s).1 ∧ ((sysStep SysEv.enf s).2).filter isCmd = [] := by
  obtain ⟨hd, ha, hpc⟩ := h
  obtain ⟨d, pc, ap⟩ := s
  simp only at hd ha hpc
  subst hd
  subst ha
  rcases hpc with h | h | h <;> subst h <;>
    exact ⟨⟨rfl, rfl, by simp [sysStep, enfStep, ScreenState.is_off, ScreenState.beq]⟩,
      rfl⟩

theorem stable_run (n : Nat) (s : Sys) (h : stable s) :
    stable (sysRun (List.replicate n SysEv.enf) s).1
    ∧ ((sysRun (List.replicate n SysEv.enf) s).2).filter isCmd = [] := by
  induction n generalizing s with
  | zero => exact ⟨h, rfl⟩
  | succ n ih =>
      obtain ⟨h1, h2⟩ := stable_step s h
      obtain ⟨h3, h4⟩ := ih (sysStep SysEv.enf s).1 h1
      rw [List.replicate_succ]
      refine ⟨h3, ?_⟩
      rw [sysRun]
      simp only [List.filter_append, h2, h4, List.append_nil]

theorem no_on_of_stable_run (n : Nat) (s : Sys) (h : stable s) :
    EAction.cmd Cmd.on ∉ (sysRun (List.replicate n SysEv.enf) s).2 := by
  intro hmem
  have h2 : EAction.cmd Cmd.on
      ∈ ((sysRun (List.replicate n SysEv.enf) s).2).filter isCmd :=
    List.mem_filter.mpr ⟨hmem, rfl⟩
  rw [(stable_run n s h).2] at h2
  exact absurd h2 (List.not_mem_nil _)

theorem offOnToggles_replicate_enf (n : Nat) (s : Sys) :
    offOnToggles (List.replicate n SysEv.enf) s = 0 := by
  induction n generalizing s with
  | zero => rfl
  | succ n ih =>
      rw [List.replicate_succ, offOnToggles]
      simp only [Nat.zero_add]
      exact ih _

/-- C2: while `DesiredState` reads off and the enforcement thread sits at its
off-check, every step issues exactly one off command followed by a 50 ms
sleep and returns to the same check with nothing else changed — for any
number of steps — and it leaves this phase (issuing nothing) exactly when
desired reads on. -/
theorem c2_off_enforcement (s : Sys) (n : Nat) (hd : s.desired = false)
    (hpc : s.enf.pc = EPhase.whileCheck) :
    sysRun (List.replicate n SysEv.enf) s = (s, offSpam n)
    ∧ (∀ s2 : Sys, s2.desired = true → s2.enf.pc = EPhase.whileCheck →
        sysStep SysEv.enf s2
          = ({ s2 with enf := { s2.enf with pc := EPhase.burstCheck } }, [])) := by
  refine ⟨?_, fun s2 h1 h2 => sysStep_enf_leave_off s2 h1 h2⟩
  induction n with
  | zero => rfl
  | succ n ih =>
      rw [List.replicate_succ, sysRun, sysStep_enf_off s hd hpc]
      simp only
      rw [ih]
      rfl

/-- A concrete off-phase configuration. -/
def sOff : Sys := { desired := false, enf := { pc := EPhase.whileCheck, applied := true } }

/-- Witness for C2: two enforcement steps from the off phase emit exactly two
off-command/50 ms-sleep pairs and leave the state untouched. -/
theorem c2_off_enforcement_witness :
    sysRun (List.replicate 2 SysEv.enf) sOff = (sOff, offSpam 2) :=
  (c2_off_enforcement sOff 2 rfl rfl).1

/-- C9: at startup both `state` and `old_state` are `AtomicBool::new(true)`
(desired and applied both on), and any number of enforcement steps before a
first toggle issues no display-power command at all. -/
theorem c9_startup_no_commands :
    sysInit.desired = true ∧ sysInit.enf.applied = true
    ∧ ∀ n : Nat,
        ((sysRun (List.replicate n SysEv.enf) sysInit).2).filter isCmd = [] :=
  ⟨rfl, rfl, fun n => (stable_run n sysInit ⟨rfl, rfl, Or.inl rfl⟩).2⟩

/-- Schedule exhibiting one Off→On transition of desired: toggle off, one
enforcement step, toggle back on, then `n` further enforcement steps. -/
def sched3 (n : Nat) : List SysEv :=
  SysEv.toggle :: SysEv.enf :: SysEv.toggle :: List.replicate n SysEv.enf

/-- C3 evidence: the schedule `sched3 n` contains exactly one Off→On
transition of `DesiredState`, yet no matter how many enforcement steps
follow, the thread never issues a single on command: `old_state` still reads
on (it is only written after a burst), so `state != old_state` is false and
the 100-shot burst cannot fire. -/
theorem c3_burst_never_fires (n : Nat) :
    offOnToggles (sched3 n) sysInit = 1
    ∧ EAction.cmd Cmd.on ∉ (sysRun (sched3 n) sysInit).2 := by
  have ht : offOnToggles (sched3 n) sysInit
      = 0 + (0 + (1 + offOnToggles (List.replicate n SysEv.enf) sysInit)) := rfl
  have hrun : sysRun (sched3 n) sysInit
      = ((sysRun (List.replicate n SysEv.enf) sysInit).1,
         EAction.cmd Cmd.off :: EAction.sleepMs 50
           :: (sysRun (List.replicate n SysEv.enf) sysInit).2) := rfl
  constructor
  · rw [ht, offOnToggles_replicate_enf]
  · rw [hrun]
    simp only [List.mem_cons]
    rintro (h | h | h)
    · exact absurd h (by simp)
    · exact absurd h (by simp)
    · exact absurd h (no_on_of_stable_run n sysInit ⟨rfl, rfl, Or.inl rfl⟩)

/-- Schedule for C7: toggle off, two off-spam steps, toggle back on, then
`n` further enforcement steps. -/
def sched7 (n : Nat) : List SysEv :=
  SysEv.toggle :: SysEv.enf :: SysEv.enf :: SysEv.toggle
    :: List.replicate n SysEv.enf

/-- C7: in the stable on/on configuration a full enforcement-loop cycle
(three steps) issues no command at all, only the trailing 50 ms sleep — but
the second half of the claim fails: along `sched7 n`, which performs exactly
one Off→On transition, the loop never issues even one on command
afterwards. -/
theorem c7_stable_silent_but_no_on_burst (n : Nat) :
    sysRun [SysEv.enf, SysEv.enf, SysEv.enf] sysInit = (sysInit, [EAction.sleepMs 50])
    ∧ offOnToggles (sched7 n) sysInit = 1
    ∧ EAction.cmd Cmd.on ∉ (sysRun (sched7 n) sysInit).2 := by
  have ht : offOnToggles (sched7 n) sysInit
      = 0 + (0 + (0 + (1 + offOnToggles (List.replicate n SysEv.enf) sysInit))) := rfl
  have hrun : sysRun (sched7 n) sysInit
      = ((sysRun (List.replicate n SysEv.enf) sysInit).1,
         EAction.cmd Cmd.off :: EAction.sleepMs 50
           :: EAction.cmd Cmd.off :: EAction.sleepMs 50
           :: (sysRun (List.replicate n SysEv.enf) sysInit).2) := rfl
  refine ⟨rfl, ?_, ?_⟩
  · rw [ht, offOnToggles_replicate_enf]
  · rw [hrun]
    simp only [List.mem_cons]
    rintro (h | h | h | h | h)
    · exact absurd h (by simp)
    · exact absurd h (by simp)
    · exact absurd h (by simp)
    · exact absurd h (by simp)
    · exact absurd h (no_on_of_stable_run n sysInit ⟨rfl, rfl, Or.inl rfl⟩)

/-- C6: completing the on burst (the step after the last of the 100 sends,
with desired still on) records `old_state` (AppliedState) on, touches no
other state and emits no action; and the main thread's `toggle` — the only
other writer in the process — never reads or writes `old_state`: it leaves
the enforcement thread's state untouched and its effect on desired does not
depend on `old_state`. -/
theorem c6_burst_records_applied (s : Sys) :
    (s.enf.pc = EPhase.burst 0 → s.desired = true →
        sysStep SysEv.enf s
          = ({ desired := true,
               enf := { pc := EPhase.endSleep, applied := true } }, []))
    ∧ ((sysStep SysEv.toggle s).1.enf = s.enf ∧ (sysStep SysEv.toggle s).2 = [])
    ∧ (∀ b : Bool,
        (sysStep SysEv.toggle { s with enf := { s.enf with applied := b } }).1.desired
          = (sysStep SysEv.toggle s).1.desired) := by
  obtain ⟨d, pc, ap⟩ := s
  refine ⟨?_, ⟨rfl, rfl⟩, fun b => rfl⟩
  intro hpc hd
  simp only at hpc hd
  subst hpc
  subst hd
  rfl

/-- A configuration at burst completion with AppliedState still off. -/
def sBurstEnd : Sys := { desired := true, enf := { pc := EPhase.burst 0, applied := false } }

/-- Witness for C6 at a concrete burst-completion configuration. -/
theorem c6_burst_records_applied_witness :
    sysStep SysEv.enf sBurstEnd
      = ({ desired := true, enf := { pc := EPhase.endSleep, applied := true } }, []) :=
  (c6_burst_records_applied sBurstEnd).1 rfl rfl

/-- Counterexample to C4 as stated: the child process completes with the
non-zero exit status 1, yet both send functions return `Ok`, not an error —
a non-zero exit status is not detected, so it is not fatal either. -/
theorem c4_nonzero_exit_is_ok :
    isErr (send_off_cmd
        (SpawnOutcome.completed { status := 1, stdout := [], stderr := [] })) = false
    ∧ isErr (send_on_cmd
        (SpawnOutcome.completed { status := 1, stdout := [], stderr := [] })) = false
    ∧ (1 : Int) ≠ 0 := by
  decide

/-- C4 (amended): `send_off_cmd`/`send_on_cmd` return an error exactly when
the command fails to spawn or waiting on it fails (exit status is never
inspected), and exactly those errors make `.expect` panic, aborting the
enforcement thread. -/
theorem c4_error_iff_spawn_or_wait (r : SpawnOutcome) :
    (isErr (send_off_cmd r) = true
        ↔ r = SpawnOutcome.spawnErr ∨ r = SpawnOutcome.waitErr)
    ∧ (isErr (send_on_cmd r) = true
        ↔ r = SpawnOutcome.spawnErr ∨ r = SpawnOutcome.waitErr)
    ∧ (expectSend (send_off_cmd r) = none ↔ isErr (send_off_cmd r) = true)
    ∧ (expectSend (send_on_cmd r) = none ↔ isErr (send_on_cmd r) = true) := by
  cases r <;> simp [send_off_cmd, send_on_cmd, isErr, expectSend]

end ScreenToggle
